import Mathlib

/-!
Verification development for the `ralph-loop` agent repository.

This file gives a shallow embedding of the parts of the code that the
checked properties are about:

* a `Json` value type modelling Python JSON values (objects are ordered
  association lists, numbers are integers — the repository's tool results
  and tool-call payloads only ever contain integers);
* models of Python's `json.dumps(..., indent=2)` and `json.loads`
  (ints, strings with `ensure_ascii` escaping incl. surrogate pairs,
  arrays, objects; floats are outside the model and make `loads` fail);
* the tool-call parser `BaseAgent._parse_tool_calls` (the two regex scans);
* the path helpers and tools from `libs/tools/tools.py`
  (`get_project_root`, `is_within_project`, `write_file`, `bash_command`)
  over a POSIX path model and an explicit filesystem map;
* the response-handling part of the three provider adapters' `chat`;
* the `BaseAgent.run` loop as a fuel-indexed state transformer over an
  oracle of provider outcomes.
-/

/-- Python JSON values.  Objects keep their entries as an ordered list,
matching insertion order of Python dicts; numbers are modelled as
integers (the only numbers this repository ever serializes). -/
inductive Json where
  | null
  | bool (b : Bool)
  | num (n : Int)
  | str (s : String)
  | arr (elems : List Json)
  | obj (entries : List (String × Json))
deriving Repr

/-- Left and right curly brace characters. -/
def lbrace : Char := '\x7b'

def rbrace : Char := '\x7d'

/-- Python `dict` lookup on an ordered entry list: with duplicate keys the
last occurrence wins, as when `json.loads` builds a dict. -/
def pyGet? (kvs : List (String × Json)) (k : String) : Option Json :=
  match kvs with
  | [] => none
  | (k', v) :: rest =>
    match pyGet? rest k with
    | some r => some r
    | none => if k' = k then some v else none

/-- Python `key in dict`. -/
def pyHasKey (kvs : List (String × Json)) (k : String) : Bool :=
  (pyGet? kvs k).isSome

/-- `canonical decimal digits of n`, helper with accumulator. -/
def natCharsAux (n : Nat) (acc : List Char) : List Char :=
  if h : n < 10 then Char.ofNat (48 + n) :: acc
  else natCharsAux (n / 10) (Char.ofNat (48 + n % 10) :: acc)
termination_by n
decreasing_by exact Nat.div_lt_self (by omega) (by omega)

/-- Canonical decimal digits of a natural number (`str(n)` in Python). -/
def natChars (n : Nat) : List Char := natCharsAux n []

/-- Decimal rendering of an integer (`str(n)` in Python). -/
def intChars (n : Int) : List Char :=
  if n < 0 then '-' :: natChars n.natAbs else natChars n.toNat

/-- Lowercase hex digit for a value below 16. -/
def hexDigit (d : Nat) : Char :=
  if d < 10 then Char.ofNat (48 + d) else Char.ofNat (87 + d)

/-- Four lowercase hex digits of a code unit below `0x10000`
(the payload of a `\u` escape). -/
def hex4 (n : Nat) : List Char :=
  [hexDigit (n / 4096 % 16), hexDigit (n / 256 % 16),
   hexDigit (n / 16 % 16), hexDigit (n % 16)]

/-- The escape sequence `json.dumps` (default `ensure_ascii=True`) emits
for one character: the two-character escapes for quote, backslash and the
five control shorthands; `\uXXXX` for any other character outside
`0x20..0x7e`, using a surrogate pair above `0xFFFF`; the character itself
otherwise. -/
def escChar (c : Char) : List Char :=
  let n := c.toNat
  if c = '"' then ['\\', '"']
  else if c = '\\' then ['\\', '\\']
  else if n = 8 then ['\\', 'b']
  else if n = 12 then ['\\', 'f']
  else if n = 10 then ['\\', 'n']
  else if n = 13 then ['\\', 'r']
  else if n = 9 then ['\\', 't']
  else if n < 32 || 126 < n then
    if n < 65536 then '\\' :: 'u' :: hex4 n
    else
      let m := n - 65536
      ('\\' :: 'u' :: hex4 (55296 + m / 1024)) ++ ('\\' :: 'u' :: hex4 (56320 + m % 1024))
  else [c]

/-- Escaped body of a JSON string literal. -/
def escBody (s : List Char) : List Char :=
  s.foldr (fun c acc => escChar c ++ acc) []

/-- A JSON string literal as `json.dumps` renders it. -/
def escString (s : String) : List Char :=
  '"' :: escBody s.data ++ ['"']

/-- The newline-plus-indentation `json.dumps(..., indent=2)` puts before
an element at nesting level `lvl`. -/
def ind (lvl : Nat) : List Char :=
  '\n' :: List.replicate (2 * lvl) ' '

mutual

/-- `json.dumps(v, indent=2)` at nesting level `lvl`: literals rendered as
`null`/`true`/`false`, integers in decimal, strings escaped, and the
containers pretty-printed with two-space indentation (empty containers
stay on one line, exactly as in Python). -/
def dumpVal (lvl : Nat) (v : Json) : List Char :=
  match v with
  | .null => "null".data
  | .bool true => "true".data
  | .bool false => "false".data
  | .num n => intChars n
  | .str s => escString s
  | .arr [] => ['[', ']']
  | .arr (x :: xs) =>
    '[' :: (ind (lvl + 1) ++ dumpVal (lvl + 1) x ++ dumpTail (lvl + 1) xs ++ ind lvl ++ [']'])
  | .obj [] => [lbrace, rbrace]
  | .obj (e :: es) =>
    lbrace :: (ind (lvl + 1) ++ dumpEntry (lvl + 1) e ++ dumpETail (lvl + 1) es ++ ind lvl ++ [rbrace])

/-- The `,`-separated continuation of a pretty-printed array. -/
def dumpTail (lvl : Nat) (xs : List Json) : List Char :=
  match xs with
  | [] => []
  | x :: rest => ',' :: (ind lvl ++ dumpVal lvl x ++ dumpTail lvl rest)

/-- One pretty-printed object entry: `"key": value`. -/
def dumpEntry (lvl : Nat) (e : String × Json) : List Char :=
  escString e.1 ++ ':' :: ' ' :: dumpVal lvl e.2

/-- The `,`-separated continuation of a pretty-printed object. -/
def dumpETail (lvl : Nat) (es : List (String × Json)) : List Char :=
  match es with
  | [] => []
  | e :: rest => ',' :: (ind lvl ++ dumpEntry lvl e ++ dumpETail lvl rest)

end

/-- `json.dumps(v, indent=2)` as a string. -/
def dumps2 (v : Json) : String := String.mk (dumpVal 0 v)

/-- JSON whitespace (the four characters `json.loads` skips). -/
def isJsonWs (c : Char) : Bool :=
  c = ' ' || c = '\t' || c = '\n' || c = '\r'

/-- Drop leading JSON whitespace. -/
def dropWsJ (cs : List Char) : List Char := cs.dropWhile isJsonWs

/-- ASCII decimal digit test. -/
def isDigitC (c : Char) : Bool := 48 ≤ c.toNat && c.toNat ≤ 57

/-- Value of one hex digit (accepting both cases, as `json.loads` does). -/
def hexVal? (c : Char) : Option Nat :=
  if isDigitC c then some (c.toNat - 48)
  else if c.toNat ≤ 102 && 97 ≤ c.toNat then some (c.toNat - 87)
  else if c.toNat ≤ 70 && 65 ≤ c.toNat then some (c.toNat - 55)
  else none

/-- Combine four hex digits into a code unit. -/
def hexQuad? (h1 h2 h3 h4 : Char) : Option Nat := do
  let a ← hexVal? h1
  let b ← hexVal? h2
  let c ← hexVal? h3
  let d ← hexVal? h4
  pure (((a * 16 + b) * 16 + c) * 16 + d)

mutual

/-- Body of a JSON string literal, after the opening quote: returns the
decoded characters and the input after the closing quote.  Mirrors the
strict `json.loads` scanner: bare control characters are rejected, the
seven short escapes and `\uXXXX` are decoded, and a high surrogate must
be followed by a low surrogate (the pair is recombined; Python would
keep a lone surrogate inside the `str`, a case a Lean `Char` cannot
represent and one that `json.dumps` output never contains). -/
def parseStrBody : List Char → Option (List Char × List Char)
  | [] => none
  | c :: rest =>
    if c = '"' then some ([], rest)
    else if c = '\\' then parseEsc rest
    else if c.toNat < 32 then none
    else (parseStrBody rest).map fun (s, r') => (c :: s, r')

/-- The escape dispatch (the character after a backslash). -/
def parseEsc : List Char → Option (List Char × List Char)
  | [] => none
  | e :: r =>
    if e = '"' then (parseStrBody r).map fun (s, r') => ('"' :: s, r')
    else if e = '\\' then (parseStrBody r).map fun (s, r') => ('\\' :: s, r')
    else if e = '/' then (parseStrBody r).map fun (s, r') => ('/' :: s, r')
    else if e = 'b' then (parseStrBody r).map fun (s, r') => (Char.ofNat 8 :: s, r')
    else if e = 'f' then (parseStrBody r).map fun (s, r') => (Char.ofNat 12 :: s, r')
    else if e = 'n' then (parseStrBody r).map fun (s, r') => ('\n' :: s, r')
    else if e = 'r' then (parseStrBody r).map fun (s, r') => (Char.ofNat 13 :: s, r')
    else if e = 't' then (parseStrBody r).map fun (s, r') => ('\t' :: s, r')
    else if e = 'u' then parseUEsc r
    else none

/-- A `\uXXXX` escape payload (after the `u`), including surrogate-pair
recombination. -/
def parseUEsc : List Char → Option (List Char × List Char)
  | h1 :: h2 :: h3 :: h4 :: r1 =>
    match hexQuad? h1 h2 h3 h4 with
    | none => none
    | some n =>
      if 55296 ≤ n && n ≤ 56319 then parseLowSur n r1
      else if 56320 ≤ n && n ≤ 57343 then none
      else (parseStrBody r1).map fun (s, r') => (Char.ofNat n :: s, r')
  | _ => none

/-- The required low-surrogate escape after a high surrogate `n`. -/
def parseLowSur (n : Nat) : List Char → Option (List Char × List Char)
  | b1 :: b2 :: g1 :: g2 :: g3 :: g4 :: r2 =>
    if b1 = '\\' && b2 = 'u' then
      match hexQuad? g1 g2 g3 g4 with
      | none => none
      | some m =>
        if 56320 ≤ m && m ≤ 57343 then
          (parseStrBody r2).map fun (s, r') =>
            (Char.ofNat (65536 + (n - 55296) * 1024 + (m - 56320)) :: s, r')
        else none
    else none
  | _ => none

end


/-- Value of a decimal digit character. -/
def digitVal (c : Char) : Nat := c.toNat - 48

/-- Value of a nonempty digit run. -/
def digitsVal (l : List Char) : Nat :=
  l.foldl (fun a c => a * 10 + digitVal c) 0

/-- The magnitude part of a JSON number token: a single `0`, or a
nonzero digit followed by the maximal digit run (the `json.loads`
number regex without sign/fraction/exponent). -/
def numCore (cs1 : List Char) : Option (Nat × List Char) :=
  match cs1 with
  | [] => none
  | c :: r =>
    if c = '0' then some (0, r)
    else if isDigitC c then
      some (digitsVal (c :: r.takeWhile isDigitC), r.drop (r.takeWhile isDigitC).length)
    else none

/-- Does a fraction or exponent part follow?  Floats are outside this
model, so the number parse fails there. -/
def floatCont (r : List Char) : Bool :=
  match r with
  | c :: _ => c = '.' || c = 'e' || c = 'E'
  | [] => false

/-- A JSON number token: optional `-` then the magnitude, rejecting
floats (fraction or exponent part). -/
def parseNum (cs : List Char) : Option (Json × List Char) :=
  match cs with
  | [] => none
  | c :: r =>
    if c = '-' then
      match numCore r with
      | some (v, rest) => if floatCont rest then none else some (.num (-(v : Int)), rest)
      | none => none
    else
      match numCore (c :: r) with
      | some (v, rest) => if floatCont rest then none else some (.num (v : Int), rest)
      | none => none

/-- Literal-prefix stripper: expects the pattern characters, returns
the remaining input. -/
def stripLit : List Char → List Char → Option (List Char)
  | [], cs => some cs
  | p :: ps, c :: cs => if c = p then stripLit ps cs else none
  | _ :: _, [] => none

mutual

/-- One JSON value, with `fuel` bounding the recursion (`json.loads`
semantics: leading whitespace skipped, then dispatch on the first
character). -/
def parseValue : Nat → List Char → Option (Json × List Char)
  | 0, _ => none
  | fuel + 1, cs =>
    match dropWsJ cs with
    | [] => none
    | c :: r =>
      if c = 'n' then (stripLit ['u', 'l', 'l'] r).map fun r' => (.null, r')
      else if c = 't' then (stripLit ['r', 'u', 'e'] r).map fun r' => (.bool true, r')
      else if c = 'f' then (stripLit ['a', 'l', 's', 'e'] r).map fun r' => (.bool false, r')
      else if c = '"' then (parseStrBody r).map fun (s, r') => (.str (String.mk s), r')
      else if c = '[' then
        match dropWsJ r with
        | [] => none
        | d :: r' =>
          if d = ']' then some (.arr [], r')
          else (parseItems fuel (d :: r')).map fun (xs, r'') => (.arr xs, r'')
      else if c = lbrace then
        match dropWsJ r with
        | [] => none
        | d :: r' =>
          if d = rbrace then some (.obj [], r')
          else (parseEntries fuel (d :: r')).map fun (es, r'') => (.obj es, r'')
      else if c = '-' || isDigitC c then parseNum (c :: r)
      else none

/-- The elements of a nonempty JSON array, up to and including the
closing bracket. -/
def parseItems : Nat → List Char → Option (List Json × List Char)
  | 0, _ => none
  | fuel + 1, cs =>
    match parseValue fuel cs with
    | none => none
    | some (v, r) =>
      match dropWsJ r with
      | [] => none
      | d :: r2 =>
        if d = ',' then (parseItems fuel r2).map fun (vs, r3) => (v :: vs, r3)
        else if d = ']' then some ([v], r2)
        else none

/-- The entries of a nonempty JSON object, up to and including the
closing brace. -/
def parseEntries : Nat → List Char → Option (List (String × Json) × List Char)
  | 0, _ => none
  | fuel + 1, cs =>
    match dropWsJ cs with
    | [] => none
    | q :: r =>
      if q = '"' then
        match parseStrBody r with
        | none => none
        | some (k, r1) =>
          match dropWsJ r1 with
          | [] => none
          | col :: r2 =>
            if col = ':' then
              match parseValue fuel r2 with
              | none => none
              | some (v, r3) =>
                match dropWsJ r3 with
                | [] => none
                | d :: r4 =>
                  if d = ',' then
                    (parseEntries fuel r4).map fun (es, r5) => ((String.mk k, v) :: es, r5)
                  else if d = rbrace then some ([(String.mk k, v)], r4)
                  else none
            else none
      else none

end

/-- `json.loads`: parse one value, then require only whitespace to
remain (Python raises `Extra data` otherwise, which is `none` here). -/
def loads (s : String) : Option Json :=
  match parseValue (s.length + 1) s.data with
  | some (v, rest) => if dropWsJ rest = [] then some v else none
  | none => none


theorem toNat_ofNat_valid (n : Nat) (h : n.isValidChar) : (Char.ofNat n).toNat = n := by
  rw [Char.ofNat, dif_pos h]
  simp [Char.ofNatAux, Char.toNat, UInt32.toNat]

theorem char_toNat_valid (c : Char) :
    c.toNat < 55296 ∨ (57343 < c.toNat ∧ c.toNat < 1114112) := c.valid

theorem hexVal?_hexDigit (d : Nat) (h : d < 16) : hexVal? (hexDigit d) = some d := by
  interval_cases d <;> decide

theorem hexQuad?_hex4 (n : Nat) (h : n < 65536) :
    hexQuad? (hexDigit (n / 4096 % 16)) (hexDigit (n / 256 % 16))
      (hexDigit (n / 16 % 16)) (hexDigit (n % 16)) = some n := by
  rw [hexQuad?]
  rw [hexVal?_hexDigit _ (Nat.mod_lt _ (by omega)), hexVal?_hexDigit _ (Nat.mod_lt _ (by omega)),
      hexVal?_hexDigit _ (Nat.mod_lt _ (by omega)), hexVal?_hexDigit _ (Nat.mod_lt _ (by omega))]
  show some ((((n / 4096 % 16) * 16 + n / 256 % 16) * 16 + n / 16 % 16) * 16 + n % 16) = some n
  congr 1
  omega

theorem psb_close (r : List Char) : parseStrBody ('"' :: r) = some ([], r) := by
  rw [parseStrBody]; rfl

theorem psb_bs (r : List Char) : parseStrBody ('\\' :: r) = parseEsc r := by
  rw [parseStrBody]; rfl

theorem psb_other (c : Char) (r : List Char) (h1 : ¬c = '"') (h2 : ¬c = '\\')
    (h3 : ¬c.toNat < 32) :
    parseStrBody (c :: r) = (parseStrBody r).map fun (s, r') => (c :: s, r') := by
  rw [parseStrBody, if_neg h1, if_neg h2, if_neg h3]

theorem pe_q (r : List Char) :
    parseEsc ('"' :: r) = (parseStrBody r).map fun (s, r') => ('"' :: s, r') := by
  rw [parseEsc]; rfl

theorem pe_bs (r : List Char) :
    parseEsc ('\\' :: r) = (parseStrBody r).map fun (s, r') => ('\\' :: s, r') := by
  rw [parseEsc]; rfl

theorem pe_b (r : List Char) :
    parseEsc ('b' :: r) = (parseStrBody r).map fun (s, r') => (Char.ofNat 8 :: s, r') := by
  rw [parseEsc]; rfl

theorem pe_f (r : List Char) :
    parseEsc ('f' :: r) = (parseStrBody r).map fun (s, r') => (Char.ofNat 12 :: s, r') := by
  rw [parseEsc]; rfl

theorem pe_n (r : List Char) :
    parseEsc ('n' :: r) = (parseStrBody r).map fun (s, r') => ('\n' :: s, r') := by
  rw [parseEsc]; rfl

theorem pe_r (r : List Char) :
    parseEsc ('r' :: r) = (parseStrBody r).map fun (s, r') => (Char.ofNat 13 :: s, r') := by
  rw [parseEsc]; rfl

theorem pe_t (r : List Char) :
    parseEsc ('t' :: r) = (parseStrBody r).map fun (s, r') => ('\t' :: s, r') := by
  rw [parseEsc]; rfl

theorem pe_u (r : List Char) : parseEsc ('u' :: r) = parseUEsc r := by
  rw [parseEsc]; rfl

theorem pue_basic (h1 h2 h3 h4 : Char) (r1 : List Char) (n : Nat)
    (hq : hexQuad? h1 h2 h3 h4 = some n) (hlo : ¬(55296 ≤ n ∧ n ≤ 56319))
    (hhi : ¬(56320 ≤ n ∧ n ≤ 57343)) :
    parseUEsc (h1 :: h2 :: h3 :: h4 :: r1) =
      (parseStrBody r1).map fun (s, r') => (Char.ofNat n :: s, r') := by
  rw [parseUEsc, hq]
  dsimp only
  rw [if_neg (by simpa using hlo), if_neg (by simpa using hhi)]

theorem pue_sur (h1 h2 h3 h4 : Char) (r1 : List Char) (n : Nat)
    (hq : hexQuad? h1 h2 h3 h4 = some n) (hn : 55296 ≤ n ∧ n ≤ 56319) :
    parseUEsc (h1 :: h2 :: h3 :: h4 :: r1) = parseLowSur n r1 := by
  rw [parseUEsc, hq]
  dsimp only
  rw [if_pos (by simpa using hn)]

theorem pls_ok (n m : Nat) (g1 g2 g3 g4 : Char) (r2 : List Char)
    (hq : hexQuad? g1 g2 g3 g4 = some m) (hm : 56320 ≤ m ∧ m ≤ 57343) :
    parseLowSur n ('\\' :: 'u' :: g1 :: g2 :: g3 :: g4 :: r2) =
      (parseStrBody r2).map fun (s, r') =>
        (Char.ofNat (65536 + (n - 55296) * 1024 + (m - 56320)) :: s, r') := by
  rw [parseLowSur]
  rw [if_pos (by decide), hq]
  dsimp only
  rw [if_pos (by simpa using hm)]

theorem parseStrBody_esc (s : List Char) (rest : List Char) :
    parseStrBody (escBody s ++ '"' :: rest) = some (s, rest) := by
  induction s with
  | nil => exact psb_close rest
  | cons c s ih =>
    have hval := char_toNat_valid c
    show parseStrBody (escChar c ++ escBody s ++ '"' :: rest) = _
    rw [escChar]
    by_cases h1 : c = '"'
    · subst h1
      simp only [reduceIte, if_pos rfl, List.cons_append, List.nil_append, psb_bs, pe_q, ih,
        Option.map_some, Option.map_some']
    rw [if_neg h1]
    by_cases h2 : c = '\\'
    · subst h2
      simp only [reduceIte, if_pos rfl, List.cons_append, List.nil_append, psb_bs, pe_bs, ih,
        Option.map_some, Option.map_some']
    rw [if_neg h2]
    by_cases h3 : c.toNat = 8
    · have hc : Char.ofNat 8 = c := h3 ▸ Char.ofNat_toNat c
      simp only [if_pos h3, List.cons_append, List.nil_append, psb_bs, pe_b, ih,
        Option.map_some, Option.map_some', hc]
    rw [if_neg h3]
    by_cases h4 : c.toNat = 12
    · have hc : Char.ofNat 12 = c := h4 ▸ Char.ofNat_toNat c
      simp only [if_pos h4, List.cons_append, List.nil_append, psb_bs, pe_f, ih,
        Option.map_some, Option.map_some', hc]
    rw [if_neg h4]
    by_cases h5 : c.toNat = 10
    · have hc10 : Char.ofNat 10 = c := h5 ▸ Char.ofNat_toNat c
      have hc : '\n' = c := hc10
      simp only [if_pos h5, List.cons_append, List.nil_append, psb_bs, pe_n, ih,
        Option.map_some, Option.map_some', hc]
    rw [if_neg h5]
    by_cases h6 : c.toNat = 13
    · have hc : Char.ofNat 13 = c := h6 ▸ Char.ofNat_toNat c
      simp only [if_pos h6, List.cons_append, List.nil_append, psb_bs, pe_r, ih,
        Option.map_some, Option.map_some', hc]
    rw [if_neg h6]
    by_cases h7 : c.toNat = 9
    · have hc9 : Char.ofNat 9 = c := h7 ▸ Char.ofNat_toNat c
      have hc : '\t' = c := hc9
      simp only [if_pos h7, List.cons_append, List.nil_append, psb_bs, pe_t, ih,
        Option.map_some, Option.map_some', hc]
    rw [if_neg h7]
    by_cases h8 : c.toNat < 32 ∨ 126 < c.toNat
    · rw [if_pos (by simpa using h8)]
      by_cases h9 : c.toNat < 65536
      · rw [if_pos h9]
        have hc : Char.ofNat c.toNat = c := Char.ofNat_toNat c
        simp only [hex4, List.cons_append, List.nil_append, psb_bs, pe_u]
        rw [pue_basic _ _ _ _ _ _ (hexQuad?_hex4 c.toNat h9) (by omega) (by omega)]
        simp only [ih, Option.map_some, Option.map_some', hc]
      · rw [if_neg h9]
        have hhiv : 55296 + (c.toNat - 65536) / 1024 < 65536 := by omega
        have hlov : 56320 + (c.toNat - 65536) % 1024 < 65536 := by
          have := Nat.mod_lt (c.toNat - 65536) (y := 1024) (by omega); omega
        have hdivle : (c.toNat - 65536) / 1024 ≤ 1023 := by omega
        have hmodlt := Nat.mod_lt (c.toNat - 65536) (y := 1024) (by omega)
        simp only [hex4, List.cons_append, List.nil_append, List.append_assoc, psb_bs, pe_u]
        rw [pue_sur _ _ _ _ _ _ (hexQuad?_hex4 _ hhiv) (by omega)]
        rw [pls_ok _ _ _ _ _ _ _ (hexQuad?_hex4 _ hlov) (by omega)]
        have harith : 65536 + (55296 + (c.toNat - 65536) / 1024 - 55296) * 1024 +
            (56320 + (c.toNat - 65536) % 1024 - 56320) = c.toNat := by
          have := Nat.div_add_mod (c.toNat - 65536) 1024
          omega
        rw [harith, Char.ofNat_toNat]
        simp only [ih, Option.map_some, Option.map_some']
    · rw [if_neg (by simpa using h8)]
      push_neg at h8
      rw [List.singleton_append, List.cons_append, psb_other c _ h1 h2 (by omega)]
      simp only [ih, Option.map_some, Option.map_some']

theorem toNat_digit (d : Nat) (h : d < 10) : (Char.ofNat (48 + d)).toNat = 48 + d :=
  toNat_ofNat_valid _ (Or.inl (by omega))

theorem isDigitC_digit (d : Nat) (h : d < 10) : isDigitC (Char.ofNat (48 + d)) = true := by
  simp only [isDigitC, toNat_digit d h, Bool.and_eq_true, decide_eq_true_eq]
  omega

theorem digit_ne (d : Nat) (hd : d < 10) (c : Char) (hc : ¬c.toNat = 48 + d) :
    ¬Char.ofNat (48 + d) = c := by
  intro h
  exact hc (h ▸ toNat_digit d hd)

theorem nca_small (n : Nat) (acc : List Char) (h : n < 10) :
    natCharsAux n acc = Char.ofNat (48 + n) :: acc := by
  rw [natCharsAux, dif_pos h]

theorem nca_big (n : Nat) (acc : List Char) (h : ¬n < 10) :
    natCharsAux n acc = natCharsAux (n / 10) (Char.ofNat (48 + n % 10) :: acc) := by
  rw [natCharsAux, dif_neg h]

theorem natCharsAux_acc (n : Nat) : ∀ acc, natCharsAux n acc = natChars n ++ acc := by
  induction n using Nat.strong_induction_on with
  | _ n ih =>
    intro acc
    by_cases h : n < 10
    · rw [nca_small n acc h, natChars, nca_small n [] h]
      rfl
    · rw [nca_big n acc h, natChars, nca_big n [] h]
      rw [ih _ (Nat.div_lt_self (by omega) (by omega)),
          ih _ (Nat.div_lt_self (by omega) (by omega))]
      simp

theorem natChars_small (n : Nat) (h : n < 10) : natChars n = [Char.ofNat (48 + n)] := by
  rw [natChars, nca_small n [] h]

theorem natChars_split (n : Nat) (h : ¬n < 10) :
    natChars n = natChars (n / 10) ++ [Char.ofNat (48 + n % 10)] := by
  rw [natChars, nca_big n [] h, natCharsAux_acc]

theorem natChars_digits (n : Nat) : ∀ c ∈ natChars n, isDigitC c = true := by
  induction n using Nat.strong_induction_on with
  | _ n ih =>
    by_cases h : n < 10
    · rw [natChars_small n h]
      intro c hc
      rw [List.mem_singleton] at hc
      subst hc
      exact isDigitC_digit n h
    · rw [natChars_split n h]
      intro c hc
      rcases List.mem_append.mp hc with h1 | h1
      · exact ih _ (Nat.div_lt_self (by omega) (by omega)) c h1
      · rw [List.mem_singleton] at h1
        subst h1
        exact isDigitC_digit _ (Nat.mod_lt _ (by omega))

theorem natChars_cons (n : Nat) :
    ∃ c t, natChars n = c :: t ∧ (1 ≤ n → ¬c = '0') := by
  induction n using Nat.strong_induction_on with
  | _ n ih =>
    by_cases h : n < 10
    · refine ⟨Char.ofNat (48 + n), [], natChars_small n h, fun h1 => ?_⟩
      refine digit_ne n h '0' ?_
      rw [show ('0').toNat = 48 from rfl]
      omega
    · obtain ⟨c, t, ht, hc⟩ := ih (n / 10) (Nat.div_lt_self (by omega) (by omega))
      refine ⟨c, t ++ [Char.ofNat (48 + n % 10)], ?_, fun _ => hc (by omega)⟩
      rw [natChars_split n h, ht]
      rfl

theorem digitsVal_natChars (n : Nat) : digitsVal (natChars n) = n := by
  induction n using Nat.strong_induction_on with
  | _ n ih =>
    by_cases h : n < 10
    · rw [natChars_small n h]
      simp [digitsVal, digitVal, toNat_digit n h]
    · rw [natChars_split n h, digitsVal, List.foldl_append]
      have h2 : List.foldl (fun a c => a * 10 + digitVal c) 0 (natChars (n / 10)) = n / 10 :=
        ih _ (Nat.div_lt_self (by omega) (by omega))
      rw [h2]
      simp only [List.foldl_cons, List.foldl_nil, digitVal,
        toNat_digit _ (Nat.mod_lt _ (by omega))]
      omega

theorem takeWhile_all_append (p : Char → Bool) (l r : List Char)
    (hl : ∀ c ∈ l, p c = true) (hr : ∀ c ∈ r.head?, p c = false) :
    (l ++ r).takeWhile p = l ∧ (l ++ r).drop l.length = r := by
  constructor
  · induction l with
    | nil =>
      cases r with
      | nil => rfl
      | cons c r' =>
        have hcf := hr c rfl
        simp [List.takeWhile, hcf]
    | cons c l' ihl =>
      have hc := hl c (by simp)
      simp only [List.cons_append, List.takeWhile, hc, List.append_eq]
      rw [ihl (fun c hc => hl c (by simp [hc]))]
  · exact List.drop_left l r

/-- No digit, dot or exponent letter follows: the characters after a
serialized number never extend the number token. -/
def noNumCont (rest : List Char) : Bool :=
  match rest with
  | [] => true
  | c :: _ => !(isDigitC c || c = '.' || c = 'e' || c = 'E')

theorem floatCont_of_noNumCont (rest : List Char) (h : noNumCont rest = true) :
    floatCont rest = false := by
  cases rest with
  | nil => rfl
  | cons c r =>
    simp only [noNumCont, Bool.not_eq_eq_eq_not, Bool.not_true, Bool.or_eq_false_iff] at h
    obtain ⟨⟨⟨-, hdot⟩, he⟩, hE⟩ := h
    simp [floatCont, hdot, he, hE]

theorem head_not_digit_of_noNumCont (rest : List Char) (h : noNumCont rest = true) :
    ∀ c ∈ rest.head?, isDigitC c = false := by
  intro c hch
  cases rest with
  | nil => cases hch
  | cons d r =>
    simp only [List.head?, Option.mem_def, Option.some.injEq] at hch
    subst hch
    simp only [noNumCont, Bool.not_eq_eq_eq_not, Bool.not_true, Bool.or_eq_false_iff] at h
    exact h.1.1.1

theorem numCore_natChars (m : Nat) (rest : List Char) (h : noNumCont rest = true) :
    numCore (natChars m ++ rest) = some (m, rest) := by
  obtain ⟨c, t, ht, hc0⟩ := natChars_cons m
  have hrest := head_not_digit_of_noNumCont rest h
  by_cases hm : m = 0
  · subst hm
    rw [natChars_small 0 (by omega)]
    show numCore (Char.ofNat 48 :: rest) = _
    rw [numCore, if_pos (by decide)]
  · have hdig := natChars_digits m
    rw [ht] at hdig ⊢
    rw [List.cons_append, numCore, if_neg (by exact hc0 (by omega)),
        if_pos (hdig c (by simp))]
    obtain ⟨htake, hdrop⟩ := takeWhile_all_append isDigitC t rest
      (fun c hc => hdig c (by simp [hc])) hrest
    rw [htake, hdrop]
    have hval : digitsVal (c :: t) = m := by
      rw [← ht, digitsVal_natChars]
    rw [hval]

theorem parseNum_intChars (n : Int) (rest : List Char) (h : noNumCont rest = true) :
    parseNum (intChars n ++ rest) = some (.num n, rest) := by
  rw [intChars]
  by_cases hn : n < 0
  · rw [if_pos hn, List.cons_append, parseNum, if_pos rfl,
        numCore_natChars n.natAbs rest h]
    dsimp only
    rw [floatCont_of_noNumCont rest h]
    have he : -(n.natAbs : Int) = n := by omega
    simp only [Bool.false_eq_true, if_false, he]
  · rw [if_neg hn]
    obtain ⟨c, t, ht, -⟩ := natChars_cons n.toNat
    have hcd : isDigitC c = true := by
      have hd := natChars_digits n.toNat
      rw [ht] at hd
      exact hd c (by simp)
    have hcm : ¬c = '-' := by
      intro he
      subst he
      revert hcd
      decide
    rw [ht, List.cons_append, parseNum, if_neg hcm, ← List.cons_append, ← ht,
        numCore_natChars n.toNat rest h]
    dsimp only
    rw [floatCont_of_noNumCont rest h]
    have he : (n.toNat : Int) = n := by omega
    simp only [Bool.false_eq_true, if_false, he]

theorem ne_of_toNat_ne (a b : Char) (h : ¬a.toNat = b.toNat) : ¬a = b :=
  fun e => h (congrArg Char.toNat e)

theorem mk_data : ∀ s : String, String.mk s.data = s
  | ⟨_⟩ => rfl

theorem dropWsJ_ws_append (w cs : List Char) (h : ∀ c ∈ w, isJsonWs c = true) :
    dropWsJ (w ++ cs) = dropWsJ cs := by
  induction w with
  | nil => rfl
  | cons c w' ih =>
    have hc := h c (by simp)
    simp only [List.cons_append, dropWsJ, List.dropWhile, hc]
    exact ih (fun c hc => h c (by simp [hc]))

theorem dropWsJ_cons_nws (c : Char) (cs : List Char) (h : isJsonWs c = false) :
    dropWsJ (c :: cs) = c :: cs := by
  simp [dropWsJ, List.dropWhile, h]

theorem ind_ws (lvl : Nat) : ∀ c ∈ ind lvl, isJsonWs c = true := by
  intro c hc
  rw [ind] at hc
  rcases List.mem_cons.mp hc with h | h
  · subst h; rfl
  · rw [List.eq_of_mem_replicate h]; rfl

theorem isDigitC_bounds (c : Char) (h : isDigitC c = true) :
    48 ≤ c.toNat ∧ c.toNat ≤ 57 := by
  simpa [isDigitC] using h

theorem intChars_head (n : Int) :
    ∃ c t, intChars n = c :: t ∧ (c = '-' ∨ isDigitC c = true) := by
  rw [intChars]
  by_cases hn : n < 0
  · exact ⟨'-', _, by rw [if_pos hn], Or.inl rfl⟩
  · obtain ⟨c, t, ht, -⟩ := natChars_cons n.toNat
    refine ⟨c, t, by rw [if_neg hn, ht], Or.inr ?_⟩
    have hd := natChars_digits n.toNat
    rw [ht] at hd
    exact hd c (by simp)

theorem num_head_ne (c : Char) (h : c = '-' ∨ isDigitC c = true) :
    ¬c = 'n' ∧ ¬c = 't' ∧ ¬c = 'f' ∧ ¬c = '"' ∧ ¬c = '[' ∧ ¬c = lbrace ∧
      isJsonWs c = false ∧ ¬c = ']' ∧ ¬c = rbrace := by
  rcases h with h | h
  · subst h
    exact ⟨by decide, by decide, by decide, by decide, by decide, by decide, rfl, by decide,
      by decide⟩
  · obtain ⟨h1, h2⟩ := isDigitC_bounds c h
    refine ⟨ne_of_toNat_ne c 'n' (by rw [show ('n').toNat = 110 from rfl]; omega),
      ne_of_toNat_ne c 't' (by rw [show ('t').toNat = 116 from rfl]; omega),
      ne_of_toNat_ne c 'f' (by rw [show ('f').toNat = 102 from rfl]; omega),
      ne_of_toNat_ne c '"' (by rw [show ('"').toNat = 34 from rfl]; omega),
      ne_of_toNat_ne c '[' (by rw [show ('[').toNat = 91 from rfl]; omega),
      ne_of_toNat_ne c lbrace (by rw [show lbrace.toNat = 123 from rfl]; omega),
      ?_,
      ne_of_toNat_ne c ']' (by rw [show (']').toNat = 93 from rfl]; omega),
      ne_of_toNat_ne c rbrace (by rw [show rbrace.toNat = 125 from rfl]; omega)⟩
    have e32 : ¬c = ' ' := ne_of_toNat_ne c ' ' (by rw [show (' ').toNat = 32 from rfl]; omega)
    have e9 : ¬c = '\t' := ne_of_toNat_ne c '\t' (by rw [show ('\t').toNat = 9 from rfl]; omega)
    have e10 : ¬c = '\n' := ne_of_toNat_ne c '\n' (by rw [show ('\n').toNat = 10 from rfl]; omega)
    have e13 : ¬c = '\r' :=
      ne_of_toNat_ne c '\r' (by rw [show Char.toNat '\r' = 13 from rfl]; omega)
    simp [isJsonWs, e32, e9, e10, e13]

theorem dump_head (lvl : Nat) (v : Json) :
    ∃ c t, dumpVal lvl v = c :: t ∧ isJsonWs c = false ∧ ¬c = ']' ∧ ¬c = rbrace ∧
      ¬c = ',' := by
  match v with
  | .null => exact ⟨'n', _, by rw [dumpVal], by decide, by decide, by decide, by decide⟩
  | .bool true => exact ⟨'t', _, by rw [dumpVal], by decide, by decide, by decide, by decide⟩
  | .bool false => exact ⟨'f', _, by rw [dumpVal], by decide, by decide, by decide, by decide⟩
  | .num n =>
    obtain ⟨c, t, ht, hd⟩ := intChars_head n
    refine ⟨c, t, by rw [dumpVal, ht], ?_, ?_, ?_, ?_⟩
    · exact (num_head_ne c hd).2.2.2.2.2.2.1
    · exact (num_head_ne c hd).2.2.2.2.2.2.2.1
    · exact (num_head_ne c hd).2.2.2.2.2.2.2.2
    · rcases hd with h | h
      · subst h; decide
      · obtain ⟨h1, h2⟩ := isDigitC_bounds c h
        exact ne_of_toNat_ne c ',' (by rw [show (',').toNat = 44 from rfl]; omega)
  | .str s =>
    exact ⟨'"', escBody s.data ++ ['"'], by rw [dumpVal, escString, List.cons_append],
      by decide, by decide, by decide, by decide⟩
  | .arr [] => exact ⟨'[', _, by rw [dumpVal], by decide, by decide, by decide, by decide⟩
  | .arr (x :: xs) =>
    exact ⟨'[', _, by rw [dumpVal], by decide, by decide, by decide, by decide⟩
  | .obj [] => exact ⟨lbrace, _, by rw [dumpVal], by decide, by decide, by decide, by decide⟩
  | .obj (e :: es) =>
    exact ⟨lbrace, _, by rw [dumpVal], by decide, by decide, by decide, by decide⟩

mutual

/-- Fuel sufficient for `parseValue` to parse a serialized value. -/
def cost : Json → Nat
  | .arr [] => 1
  | .arr (x :: xs) => 1 + costItems x xs
  | .obj [] => 1
  | .obj (e :: es) => 1 + costEntries e es
  | .null => 1
  | .bool _ => 1
  | .num _ => 1
  | .str _ => 1
termination_by v => sizeOf v

/-- Fuel sufficient for `parseItems` on a serialized nonempty array. -/
def costItems : Json → List Json → Nat
  | x, [] => 1 + cost x
  | x, y :: ys => 1 + max (cost x) (costItems y ys)
termination_by x xs => 1 + sizeOf x + sizeOf xs

/-- Fuel sufficient for `parseEntries` on a serialized nonempty object. -/
def costEntries : (String × Json) → List (String × Json) → Nat
  | (_, v), [] => 1 + cost v
  | (_, v), f :: fs => 1 + max (cost v) (costEntries f fs)
termination_by e es => 1 + sizeOf e + sizeOf es

end

theorem noNumCont_ind (lvl : Nat) (x : List Char) : noNumCont (ind lvl ++ x) = true := rfl

theorem noNumCont_comma (x : List Char) : noNumCont (',' :: x) = true := rfl

theorem dumpEntry_head (l : Nat) (e : String × Json) :
    ∃ t, dumpEntry l e = '"' :: t := by
  refine ⟨escBody e.1.data ++ '"' :: ':' :: ' ' :: dumpVal l e.2, ?_⟩
  rw [dumpEntry, escString]
  simp [List.append_assoc]

mutual

theorem parseValue_dump : ∀ (v : Json) (fuel lvl : Nat) (w rest : List Char),
    (∀ c ∈ w, isJsonWs c = true) → cost v ≤ fuel → noNumCont rest = true →
    parseValue fuel (w ++ (dumpVal lvl v ++ rest)) = some (v, rest)
  | .null, fuel, lvl, w, rest, hw, hcost, hr => by
    rw [cost] at hcost
    obtain ⟨f, rfl⟩ : ∃ f, fuel = f + 1 := ⟨fuel - 1, by omega⟩
    rw [parseValue, dropWsJ_ws_append w _ hw, dumpVal]
    rfl
  | .bool true, fuel, lvl, w, rest, hw, hcost, hr => by
    rw [cost] at hcost
    obtain ⟨f, rfl⟩ : ∃ f, fuel = f + 1 := ⟨fuel - 1, by omega⟩
    rw [parseValue, dropWsJ_ws_append w _ hw, dumpVal]
    rfl
  | .bool false, fuel, lvl, w, rest, hw, hcost, hr => by
    rw [cost] at hcost
    obtain ⟨f, rfl⟩ : ∃ f, fuel = f + 1 := ⟨fuel - 1, by omega⟩
    rw [parseValue, dropWsJ_ws_append w _ hw, dumpVal]
    rfl
  | .num n, fuel, lvl, w, rest, hw, hcost, hr => by
    rw [cost] at hcost
    obtain ⟨f, rfl⟩ : ∃ f, fuel = f + 1 := ⟨fuel - 1, by omega⟩
    rw [parseValue, dropWsJ_ws_append w _ hw, dumpVal]
    obtain ⟨c, t, ht, hd⟩ := intChars_head n
    obtain ⟨hn1, hn2, hn3, hn4, hn5, hn6, hn7, -, -⟩ := num_head_ne c hd
    rw [ht, List.cons_append, dropWsJ_cons_nws c _ hn7]
    dsimp only
    rw [if_neg hn1, if_neg hn2, if_neg hn3, if_neg hn4, if_neg hn5, if_neg hn6]
    have hcond : (decide (c = '-') || isDigitC c) = true := by
      rcases hd with h | h
      · subst h; simp
      · simp [h]
    rw [if_pos hcond, ← List.cons_append, ← ht, parseNum_intChars n rest hr]
  | .str s, fuel, lvl, w, rest, hw, hcost, hr => by
    rw [cost] at hcost
    obtain ⟨f, rfl⟩ : ∃ f, fuel = f + 1 := ⟨fuel - 1, by omega⟩
    rw [parseValue, dropWsJ_ws_append w _ hw, dumpVal, escString]
    simp only [List.append_assoc, List.singleton_append, List.cons_append, List.nil_append]
    rw [dropWsJ_cons_nws '"' _ rfl]
    dsimp only
    rw [if_neg (by decide), if_neg (by decide), if_neg (by decide), if_pos rfl,
        parseStrBody_esc s.data rest]
    simp only [Option.map_some, Option.map_some', mk_data]
  | .arr [], fuel, lvl, w, rest, hw, hcost, hr => by
    rw [cost] at hcost
    obtain ⟨f, rfl⟩ : ∃ f, fuel = f + 1 := ⟨fuel - 1, by omega⟩
    rw [parseValue, dropWsJ_ws_append w _ hw, dumpVal]
    rfl
  | .arr (x :: xs), fuel, lvl, w, rest, hw, hcost, hr => by
    rw [cost] at hcost
    obtain ⟨f, rfl⟩ : ∃ f, fuel = f + 1 := ⟨fuel - 1, by omega⟩
    rw [parseValue, dropWsJ_ws_append w _ hw, dumpVal]
    rw [List.cons_append, dropWsJ_cons_nws '[' _ rfl]
    dsimp only
    rw [if_neg (by decide), if_neg (by decide), if_neg (by decide), if_neg (by decide),
        if_pos rfl]
    simp only [List.append_assoc, List.singleton_append]
    rw [dropWsJ_ws_append _ _ (ind_ws (lvl + 1))]
    obtain ⟨c2, t2, heq, hnws2, hnrb2, -, -⟩ := dump_head (lvl + 1) x
    rw [heq, List.cons_append, dropWsJ_cons_nws c2 _ hnws2]
    dsimp only
    rw [if_neg hnrb2, ← List.cons_append, ← heq]
    have hi := parseItems_dump x xs f (lvl + 1) lvl [] rest (by simp) (by omega)
    rw [List.nil_append] at hi
    rw [hi]
    rfl
  | .obj [], fuel, lvl, w, rest, hw, hcost, hr => by
    rw [cost] at hcost
    obtain ⟨f, rfl⟩ : ∃ f, fuel = f + 1 := ⟨fuel - 1, by omega⟩
    rw [parseValue, dropWsJ_ws_append w _ hw, dumpVal]
    rfl
  | .obj (e :: es), fuel, lvl, w, rest, hw, hcost, hr => by
    rw [cost] at hcost
    obtain ⟨f, rfl⟩ : ∃ f, fuel = f + 1 := ⟨fuel - 1, by omega⟩
    rw [parseValue, dropWsJ_ws_append w _ hw, dumpVal]
    rw [List.cons_append, dropWsJ_cons_nws lbrace _ rfl]
    dsimp only
    rw [if_neg (by decide), if_neg (by decide), if_neg (by decide), if_neg (by decide),
        if_neg (by decide), if_pos rfl]
    simp only [List.append_assoc, List.singleton_append]
    rw [dropWsJ_ws_append _ _ (ind_ws (lvl + 1))]
    obtain ⟨t2, heq⟩ := dumpEntry_head (lvl + 1) e
    rw [heq, List.cons_append, dropWsJ_cons_nws '"' _ rfl]
    dsimp only
    rw [if_neg (by decide), ← List.cons_append, ← heq]
    have hi := parseEntries_dump e es f (lvl + 1) lvl [] rest (by simp) (by omega)
    rw [List.nil_append] at hi
    rw [hi]
    rfl
termination_by v _ _ _ _ _ _ _ => sizeOf v

theorem parseItems_dump : ∀ (x : Json) (xs : List Json) (fuel l l2 : Nat) (w rest : List Char),
    (∀ c ∈ w, isJsonWs c = true) → costItems x xs ≤ fuel →
    parseItems fuel (w ++ (dumpVal l x ++ (dumpTail l xs ++ (ind l2 ++ ']' :: rest)))) =
      some (x :: xs, rest)
  | x, [], fuel, l, l2, w, rest, hw, hcost => by
    rw [costItems] at hcost
    obtain ⟨g, rfl⟩ : ∃ g, fuel = g + 1 := ⟨fuel - 1, by omega⟩
    rw [parseItems, dumpTail, List.nil_append]
    rw [parseValue_dump x g l w (ind l2 ++ ']' :: rest) hw (by omega) (noNumCont_ind l2 _)]
    dsimp only
    rw [dropWsJ_ws_append _ _ (ind_ws l2), dropWsJ_cons_nws ']' _ rfl]
    rfl
  | x, y :: ys, fuel, l, l2, w, rest, hw, hcost => by
    rw [costItems] at hcost
    obtain ⟨g, rfl⟩ : ∃ g, fuel = g + 1 := ⟨fuel - 1, by omega⟩
    rw [parseItems, dumpTail]
    rw [List.cons_append]
    rw [parseValue_dump x g l w _ hw (by omega) (noNumCont_comma _)]
    dsimp only
    rw [dropWsJ_cons_nws ',' _ rfl]
    dsimp only
    rw [if_pos rfl]
    simp only [List.append_assoc]
    rw [parseItems_dump y ys g l l2 (ind l) rest (ind_ws l) (by omega)]
    rfl
termination_by x xs _ _ _ _ _ _ _ => 1 + sizeOf x + sizeOf xs

theorem parseEntries_dump :
    ∀ (e : String × Json) (es : List (String × Json)) (fuel l l2 : Nat) (w rest : List Char),
    (∀ c ∈ w, isJsonWs c = true) → costEntries e es ≤ fuel →
    parseEntries fuel (w ++ (dumpEntry l e ++ (dumpETail l es ++ (ind l2 ++ rbrace :: rest)))) =
      some (e :: es, rest)
  | (k, v), [], fuel, l, l2, w, rest, hw, hcost => by
    rw [costEntries] at hcost
    obtain ⟨g, rfl⟩ : ∃ g, fuel = g + 1 := ⟨fuel - 1, by omega⟩
    rw [parseEntries, dumpETail, List.nil_append, dumpEntry, escString]
    simp only [List.cons_append, List.append_assoc, List.singleton_append, List.nil_append]
    rw [dropWsJ_ws_append w _ hw, dropWsJ_cons_nws '"' _ rfl]
    dsimp only
    rw [if_pos rfl, parseStrBody_esc]
    dsimp only
    rw [dropWsJ_cons_nws ':' _ rfl]
    dsimp only
    rw [if_pos rfl]
    have hv := parseValue_dump v g l [' '] (ind l2 ++ rbrace :: rest) (by decide) (by omega)
      (noNumCont_ind l2 _)
    simp only [List.singleton_append] at hv
    rw [hv]
    dsimp only
    rw [dropWsJ_ws_append _ _ (ind_ws l2), dropWsJ_cons_nws rbrace _ rfl]
    dsimp only
    rw [if_neg (by decide), if_pos rfl, mk_data]
  | (k, v), f :: fs, fuel, l, l2, w, rest, hw, hcost => by
    rw [costEntries] at hcost
    obtain ⟨g, rfl⟩ : ∃ g, fuel = g + 1 := ⟨fuel - 1, by omega⟩
    rw [parseEntries, dumpETail, dumpEntry, escString]
    simp only [List.cons_append, List.append_assoc, List.singleton_append, List.nil_append]
    rw [dropWsJ_ws_append w _ hw, dropWsJ_cons_nws '"' _ rfl]
    dsimp only
    rw [if_pos rfl, parseStrBody_esc]
    dsimp only
    rw [dropWsJ_cons_nws ':' _ rfl]
    dsimp only
    rw [if_pos rfl]
    have hv := parseValue_dump v g l [' ']
      (',' :: (ind l ++ (dumpEntry l f ++ (dumpETail l fs ++ (ind l2 ++ rbrace :: rest)))))
      (by decide) (by omega) (noNumCont_comma _)
    simp only [List.singleton_append] at hv
    rw [hv]
    dsimp only
    rw [dropWsJ_cons_nws ',' _ rfl]
    dsimp only
    rw [if_pos rfl]
    rw [parseEntries_dump f fs g l l2 (ind l) rest (ind_ws l) (by omega)]
    simp only [Option.map_some, Option.map_some', mk_data]
termination_by e es _ _ _ _ _ _ _ => 1 + sizeOf e + sizeOf es

end

theorem ind_len (lvl : Nat) : (ind lvl).length = 1 + 2 * lvl := by
  simp [ind]
  omega

theorem dump_len_pos (lvl : Nat) (v : Json) : 1 ≤ (dumpVal lvl v).length := by
  obtain ⟨c, t, heq, -, -, -, -⟩ := dump_head lvl v
  rw [heq]
  simp

mutual

theorem cost_le : ∀ (v : Json) (lvl : Nat), cost v ≤ (dumpVal lvl v).length
  | .null, lvl => by rw [cost, dumpVal]; simp
  | .bool true, lvl => by rw [cost, dumpVal]; simp
  | .bool false, lvl => by rw [cost, dumpVal]; simp
  | .num n, lvl => by
    rw [cost]
    exact dump_len_pos lvl (.num n)
  | .str s, lvl => by
    rw [cost]
    exact dump_len_pos lvl (.str s)
  | .arr [], lvl => by rw [cost, dumpVal]; simp
  | .arr (x :: xs), lvl => by
    rw [cost, dumpVal]
    have h1 := costItems_le x xs (lvl + 1)
    simp only [List.length_cons, List.length_append, ind_len, List.length_singleton]
    omega
  | .obj [], lvl => by rw [cost, dumpVal]; simp
  | .obj (e :: es), lvl => by
    rw [cost, dumpVal]
    have h1 := costEntries_le e es (lvl + 1)
    simp only [List.length_cons, List.length_append, ind_len, List.length_singleton]
    omega
termination_by v _ => sizeOf v

theorem costItems_le :
    ∀ (x : Json) (xs : List Json) (lvl : Nat),
      costItems x xs ≤ (dumpVal lvl x).length + (dumpTail lvl xs).length + 1
  | x, [], lvl => by
    rw [costItems, dumpTail]
    have h1 := cost_le x lvl
    simp only [List.length_nil]
    omega
  | x, y :: ys, lvl => by
    rw [costItems, dumpTail]
    have h1 := cost_le x lvl
    have h2 := costItems_le y ys lvl
    simp only [List.length_cons, List.length_append, ind_len]
    omega
termination_by x xs _ => 1 + sizeOf x + sizeOf xs

theorem costEntries_le :
    ∀ (e : String × Json) (es : List (String × Json)) (lvl : Nat),
      costEntries e es ≤ (dumpEntry lvl e).length + (dumpETail lvl es).length + 1
  | (k, v), [], lvl => by
    rw [costEntries, dumpETail, dumpEntry]
    have h1 := cost_le v lvl
    simp only [List.length_nil, List.length_append, List.length_cons]
    omega
  | (k, v), f :: fs, lvl => by
    rw [costEntries, dumpETail, dumpEntry]
    have h1 := cost_le v lvl
    have h2 := costEntries_le f fs lvl
    simp only [List.length_cons, List.length_append, ind_len]
    omega
termination_by e es _ => 1 + sizeOf e + sizeOf es

end

/-- Round trip: `json.loads` recovers exactly the value that
`json.dumps(..., indent=2)` serialized. -/
theorem loads_dumps2 (v : Json) : loads (dumps2 v) = some v := by
  rw [loads, dumps2]
  have hp := parseValue_dump v ((dumpVal 0 v).length + 1) 0 [] []
    (by simp) (Nat.le_trans (cost_le v 0) (by omega)) rfl
  simp only [List.nil_append, List.append_nil] at hp
  rw [show (String.mk (dumpVal 0 v)).length = (dumpVal 0 v).length from rfl,
      show (String.mk (dumpVal 0 v)).data = dumpVal 0 v from rfl, hp]
  rfl

/-- Python regex `\s` on the characters these patterns meet
(ASCII whitespace: space, tab, newline, carriage return, vertical tab,
form feed). -/
def isPySpace (c : Char) : Bool :=
  c = ' ' || c = '\t' || c = '\n' || c = '\r' || c.toNat = 11 || c.toNat = 12

/-- Python regex `\w` (ASCII letters, digits and underscore). -/
def isWordChar (c : Char) : Bool := c.isAlphanum || c = '_'

/-- Python `str.strip()`: remove leading and trailing whitespace. -/
def pyStrip (s : String) : String :=
  String.mk (((s.data.dropWhile isPySpace).reverse.dropWhile isPySpace).reverse)

/-- Split the input at the first occurrence of `pat` (nonempty):
returns the part before it and the part after it.  This is how a lazy
`(.*?)` followed by a literal behaves. -/
def splitFirst (pat : List Char) : List Char → Option (List Char × List Char)
  | [] => none
  | c :: cs =>
    if pat.isPrefixOf (c :: cs) then some ([], (c :: cs).drop pat.length)
    else (splitFirst pat cs).map fun (before, after) => (c :: before, after)

/-- The suffixes of the input that start right after a `\n` lying inside
the leading whitespace run, in textual order.  These are the candidate
resume points for `\s*\n` (the `\s*` is greedy, so the engine tries the
last newline first — see `fenceAfterTag`). -/
def nlCandAsc : List Char → List (List Char)
  | [] => []
  | c :: cs =>
    if isPySpace c then
      (if c = '\n' then [cs] else []) ++ nlCandAsc cs
    else []

/-- Try each candidate in order, returning the first success. -/
def firstSome {α : Type} : List (List Char) → (List Char → Option α) → Option α
  | [], _ => none
  | x :: xs, f =>
    match f x with
    | some r => some r
    | none => firstSome xs f

/-- After a recognized fence tag: match `\s*\n(.*?)\n` followed by three
backticks, with the regex engine's backtracking order (greedy `\s*`
first takes the whitespace up to the last contained newline, then backs
off; the lazy body is the shortest stretch up to a closing
newline-plus-fence).  Returns the captured body and the input after the
match. -/
def fenceAfterTag (cs : List Char) : Option (List Char × List Char) :=
  firstSome (nlCandAsc cs).reverse fun suff => splitFirst ['\n', '`', '`', '`'] suff

/-- One attempt of the fenced-block pattern
(three backticks, then `tool`, `bash` or `command` tried in that order,
then `\s*\n(.*?)\n` and a closing fence) at the current position. -/
def tagFence (cs : List Char) : Option (List Char × List Char) :=
  match stripLit ['`', '`', '`'] cs with
  | none => none
  | some cs0 =>
    (match stripLit ['t', 'o', 'o', 'l'] cs0 with
     | some cs1 => fenceAfterTag cs1
     | none => none) <|>
    (match stripLit ['b', 'a', 's', 'h'] cs0 with
     | some cs1 => fenceAfterTag cs1
     | none => none) <|>
    (match stripLit ['c', 'o', 'm', 'm', 'a', 'n', 'd'] cs0 with
     | some cs1 => fenceAfterTag cs1
     | none => none)

/-- `re.finditer` over the fenced-block pattern: scan left to right,
emit each match's captured body, resume after the match.  Fuel is the
input length; every match consumes at least one character, so it never
runs out before the scan is complete. -/
def scanFencesAux : Nat → List Char → List (List Char)
  | 0, _ => []
  | _, [] => []
  | fl + 1, c :: cs =>
    match tagFence (c :: cs) with
    | some (body, rest) => body :: scanFencesAux fl rest
    | none => scanFencesAux fl cs

/-- All fenced-block bodies of the content, in order. -/
def scanFences (content : String) : List String :=
  (scanFencesAux content.data.length content.data).map String.mk

/-- The lazy `({.*?})\s*\]` tail: after an opening brace, find the
shortest inner span whose closing brace is followed by optional
whitespace and `]`.  Returns the inner span and the input after the
`]`. -/
def lazyArgsAux (acc : List Char) : List Char → Option (List Char × List Char)
  | [] => none
  | c :: cs =>
    if c = rbrace then
      match cs.dropWhile isPySpace with
      | ']' :: cs3 => some (acc.reverse, cs3)
      | _ => lazyArgsAux (c :: acc) cs
    else lazyArgsAux (c :: acc) cs

/-- One attempt of the bracket pattern
`\[TOOL:\s*(\w+)\s*\]\s*\[ARGS:\s*({.*?})\s*\]` at the current
position: returns the tool name, the argument text (with its braces)
and the input after the match. -/
def matchBracketAt (cs : List Char) : Option (String × String × List Char) := do
  let cs1 ← stripLit ['[', 'T', 'O', 'O', 'L', ':'] cs
  let cs2 := cs1.dropWhile isPySpace
  let name := cs2.takeWhile isWordChar
  if name.isEmpty then none
  else do
    let cs3 := (cs2.drop name.length).dropWhile isPySpace
    let cs4 ← stripLit [']'] cs3
    let cs5 ← stripLit ['[', 'A', 'R', 'G', 'S', ':'] (cs4.dropWhile isPySpace)
    let cs6 := cs5.dropWhile isPySpace
    match cs6 with
    | c :: cs7 =>
      if c = lbrace then
        match lazyArgsAux [] cs7 with
        | some (inner, rest) =>
          some (String.mk name, String.mk (lbrace :: (inner ++ [rbrace])), rest)
        | none => none
      else none
    | [] => none

/-- `re.finditer` over the bracket pattern: each match yields the name
and the argument text. -/
def scanBracketsAux : Nat → List Char → List (String × String)
  | 0, _ => []
  | _, [] => []
  | fl + 1, c :: cs =>
    match matchBracketAt (c :: cs) with
    | some (name, args, rest) => (name, args) :: scanBracketsAux fl rest
    | none => scanBracketsAux fl cs

/-- All bracket-directive matches of the content, in order. -/
def scanBrackets (content : String) : List (String × String) :=
  scanBracketsAux content.data.length content.data

/-- A parsed tool call: the `tool` value and the `args` mapping, as
appended to the `tool_calls` list.  The tool is an arbitrary JSON value
because a fenced `\x7b"tool": ...\x7d` object may carry a non-string
there; the bracket form always yields a string. -/
structure ToolCall where
  tool : Json
  args : Json
deriving Repr

/-- Processing of one fenced-block body (`BaseAgent._parse_tool_calls`,
first loop): try `json.loads`; a JSON object with a `tool` key becomes
a call with `args` falling back to `arguments` and then to the empty
mapping; other valid JSON produces nothing; invalid JSON becomes a
synthetic `bash` call whose command is the stripped body. -/
def processFence (body : String) : Option ToolCall :=
  match loads body with
  | some tool_data =>
    match tool_data with
    | .obj kvs =>
      if pyHasKey kvs "tool" then
        some { tool := (pyGet? kvs "tool").getD .null,
               args := (pyGet? kvs "args").getD ((pyGet? kvs "arguments").getD (.obj [])) }
      else none
    | _ => none
  | none => some { tool := .str "bash", args := .obj [("command", .str (pyStrip body))] }

/-- Processing of one bracket match (second loop): decode the args as
JSON, silently dropping the occurrence on failure. -/
def processBracket (p : String × String) : Option ToolCall :=
  match loads p.2 with
  | some args => some { tool := .str p.1, args := args }
  | none => none

/-- `BaseAgent._parse_tool_calls` (also `GLM47Agent._parse_tool_calls`,
which is the same code): the fenced-block scan in order, followed by
the bracket scan in order. -/
def parse_tool_calls (content : String) : List ToolCall :=
  (scanFences content).filterMap processFence ++
    (scanBrackets content).filterMap processBracket

/-- Process environment for the path helpers: the optional
`PROJECT_ROOT` variable and the current working directory (always an
absolute path in a process). -/
structure Env where
  projectRootVar : Option String
  cwd : String

/-- `get_project_root`: `os.environ.get('PROJECT_ROOT', os.getcwd())`. -/
def get_project_root (env : Env) : String :=
  match env.projectRootVar with
  | some r => r
  | none => env.cwd

/-- POSIX: a path is absolute iff it starts with a slash. -/
def isAbsP (p : String) : Bool :=
  match p.data with
  | '/' :: _ => true
  | _ => false

/-- `p.split('/')` (Python `str.split` with a one-character
separator). -/
def splitSlashAux (cur : List Char) : List Char → List String
  | [] => [String.mk cur.reverse]
  | c :: cs =>
    if c = '/' then String.mk cur.reverse :: splitSlashAux [] cs
    else splitSlashAux (c :: cur) cs

def splitSlash (p : String) : List String := splitSlashAux [] p.data

/-- Join components with `/` separators. -/
def joinSlash : List String → String
  | [] => ""
  | [x] => x
  | x :: xs => x ++ "/" ++ joinSlash xs

/-- One step of `posixpath.normpath`'s component scan (CPython): empty
and `.` components are dropped; `..` pops a non-`..` stack entry, is
kept when the (relative) stack is empty or ends in `..`, and is dropped
at the root of an absolute path.  The accumulator is the reversed
stack. -/
def npFold (isabs : Bool) (acc : List String) (comp : String) : List String :=
  if comp = "" || comp = "." then acc
  else if ¬comp = ".." then comp :: acc
  else
    match acc with
    | [] => if isabs then [] else [".."]
    | top :: rest => if top = ".." then comp :: acc else rest

/-- `posixpath.normpath` (the double-initial-slash special case of POSIX
is not modelled; no input in this development has one). -/
def normpath (p : String) : String :=
  if p = "" then "."
  else
    let isabs := isAbsP p
    let comps := ((splitSlash p).foldl (npFold isabs) []).reverse
    let s := joinSlash comps
    if isabs then "/" ++ s
    else if s = "" then "." else s

/-- `posixpath.abspath`: join with the working directory when relative,
then normalize.  (`os.path.join cwd p` is modelled as `cwd ++ "/" ++ p`;
`normpath` collapses any doubled slash this introduces, giving the same
result as CPython.) -/
def abspath (cwd p : String) : String :=
  if isAbsP p then normpath p else normpath (cwd ++ "/" ++ p)

/-- Length of the common prefix of two component lists. -/
def commonLen : List String → List String → Nat
  | a :: as', b :: bs => if a = b then 1 + commonLen as' bs else 0
  | _, _ => 0

/-- `posixpath.relpath path start`: raises `ValueError` (the `.error`
branch) only when `path` is the empty string; for every other input it
totally computes a relative path out of `..` steps and remaining
components. -/
def posixRelpath (cwd path start : String) : Except String String :=
  if path = "" then .error "no path specified"
  else
    let pl := (splitSlash (abspath cwd path)).filter (fun c => ¬c = "")
    let sl := (splitSlash (abspath cwd start)).filter (fun c => ¬c = "")
    let i := commonLen sl pl
    let rel := List.replicate (sl.length - i) ".." ++ pl.drop i
    .ok (if rel.isEmpty then "." else joinSlash rel)

/-- `is_within_project` from `libs/tools/tools.py`: absolutize the file
path and the project root, attempt `os.path.relpath`, and report
containment as "relpath did not raise".  (On POSIX `relpath` never
raises for a nonempty path, which is why this check never rejects
anything; the `ValueError` branch exists only on Windows for paths on
different drives.) -/
def is_within_project (env : Env) (file_path : String) : Bool :=
  let project_root := get_project_root env
  let abs_file_path := abspath env.cwd file_path
  let abs_project_root := abspath env.cwd project_root
  match posixRelpath env.cwd abs_file_path abs_project_root with
  | .ok _ => true
  | .error _ => false

/-- `write_file` from `libs/tools/tools.py` over an explicit filesystem
map (path to contents): validate with `is_within_project`, returning
the failure Tool Result without touching the filesystem on rejection;
otherwise write (directory creation and I/O errors are outside this
model) and return the success Tool Result. -/
def write_file (env : Env) (fs : String → Option String) (file_path content : String) :
    (String → Option String) × Json :=
  if ¬is_within_project env file_path then
    (fs, Json.obj [("success", .bool false),
      ("error", .str ("Cannot write file outside project directory. File: " ++ file_path ++
        ", Project root: " ++ get_project_root env))])
  else
    (fun p => if p = file_path then some content else fs p,
     Json.obj [("success", .bool true), ("message", .str ("Written to " ++ file_path)),
       ("bytes", .num content.length)])

/-- How one `subprocess.run` invocation went: completion with an exit
code and captured streams, a timeout, or some other exception. -/
inductive BashOutcome where
  | completed (returncode : Int) (stdout stderr : String)
  | timedOut
  | exc (msg : String)

/-- `bash_command` from `libs/tools/tools.py`: on completion the result
has `success = (returncode == 0)`, the exit code and both streams, and
no `error` field; a timeout or an exception yields `success: false`
with only an `error` field. -/
def bash_command (o : BashOutcome) : Json :=
  match o with
  | .completed rc out err =>
    Json.obj [("success", .bool (rc == 0)), ("exit_code", .num rc),
      ("stdout", .str out), ("stderr", .str err)]
  | .timedOut => Json.obj [("success", .bool false), ("error", .str "Command timed out")]
  | .exc m => Json.obj [("success", .bool false), ("error", .str m)]

/-- Outcome of a Python code path: a returned value, a raised
`ProviderError` with its message, or some other raised exception
(`TypeError`, `KeyError`, `AttributeError`, ...). -/
inductive PyOutcome (α : Type) where
  | ok (a : α)
  | perr (msg : String)
  | raised
deriving Repr

/-- `key in result and len(result[key]) > 0` for a JSON-parsed `result`:
dict membership plus `len` of the value (raising on unsized values);
`in` on a list is element membership (and indexing a list by a string
would raise); `in` on a string is a substring test; `in` on any other
value raises `TypeError`. -/
def hasNonemptyKey (result : Json) (key : String) : PyOutcome Bool :=
  match result with
  | .obj kvs =>
    match pyGet? kvs key with
    | none => .ok false
    | some (.arr xs) => .ok (¬xs.isEmpty)
    | some (.str s) => .ok (¬s.isEmpty)
    | some (.obj kvs2) => .ok (¬kvs2.isEmpty)
    | some _ => .raised
  | .arr xs =>
    if xs.any (fun x => match x with | .str s => s = key | _ => false) then .raised
    else .ok false
  | .str s =>
    match splitFirst key.data s.data with
    | some _ => .raised
    | none => .ok false
  | _ => .raised

/-- Python `.get(key, default)` on a value expected to be a dict;
anything else raises `AttributeError`. -/
def pyDictGetD (j : Json) (key : String) (dflt : Json) : PyOutcome Json :=
  match j with
  | .obj kvs => .ok ((pyGet? kvs key).getD dflt)
  | _ => .raised

/-- The response handling of `GLMProvider.chat` applied to the
JSON-parsed backend reply (the transport and its retry loop are
upstream of this logic): a nonempty `choices` array yields the
canonical response dict, anything else raises
`ProviderError("No response from GLM")`.  A raised non-`ProviderError`
propagates out of `chat` uncaught. -/
def glmExtract (model : String) (result : Json) : PyOutcome Json :=
  match result with
  | .obj kvs =>
    match pyGet? kvs "choices" with
    | some (.arr (c :: _)) =>
      match pyDictGetD c "message" (.obj []) with
      | .ok message =>
        match pyDictGetD message "content" (.str ""),
            pyDictGetD message "reasoning_content" (.str "") with
        | .ok content, .ok reasoning =>
          .ok (Json.obj [("content", content), ("reasoning", reasoning), ("raw", result),
            ("model", .str model)])
        | _, _ => .raised
      | _ => .raised
    | _ => .raised
  | _ => .raised

def glmChat (model : String) (result : Json) : PyOutcome Json :=
  match hasNonemptyKey result "choices" with
  | .raised => .raised
  | .perr m => .perr m
  | .ok false => .perr "No response from GLM"
  | .ok true => glmExtract model result

/-- The `except Exception` wrapper of the Codex and Claude `chat`
bodies: any exception raised inside, `ProviderError` included, is
re-raised as `ProviderError(f"<name> request failed: {e}")`.  The
string rendering of a non-`ProviderError` exception is not modelled
(that branch is unreachable in the theorems below). -/
def wrapExc (provName : String) : PyOutcome Json → PyOutcome Json
  | .ok r => .ok r
  | .perr m => .perr (provName ++ " request failed: " ++ m)
  | .raised => .perr (provName ++ " request failed: ")

/-- The response handling inside `CodexProvider.chat`'s `try` block,
applied to the JSON-parsed backend reply. -/
def codexExtract (model : String) (result : Json) : PyOutcome Json :=
  match result with
  | .obj kvs =>
    match pyGet? kvs "choices" with
    | some (.arr (c :: _)) =>
      match pyDictGetD c "message" (.obj []) with
      | .ok message =>
        match pyDictGetD message "content" (.str "") with
        | .ok content =>
          .ok (Json.obj [("content", content), ("raw", result), ("model", .str model)])
        | _ => .raised
      | _ => .raised
    | _ => .raised
  | _ => .raised

def codexInner (model : String) (result : Json) : PyOutcome Json :=
  match hasNonemptyKey result "choices" with
  | .raised => .raised
  | .perr m => .perr m
  | .ok false => .perr "No response from OpenAI"
  | .ok true => codexExtract model result

/-- `CodexProvider.chat` response handling including its
`except Exception` wrapper. -/
def codexChat (model : String) (result : Json) : PyOutcome Json :=
  wrapExc "OpenAI" (codexInner model result)

/-- The response handling inside `ClaudeProvider.chat`'s `try` block:
the canonical content is the `text` of the first content block. -/
def claudeExtract (model : String) (result : Json) : PyOutcome Json :=
  match result with
  | .obj kvs =>
    match pyGet? kvs "content" with
    | some (.arr (b :: _)) =>
      match pyDictGetD b "text" (.str "") with
      | .ok text =>
        .ok (Json.obj [("content", text), ("raw", result), ("model", .str model)])
      | _ => .raised
    | _ => .raised
  | _ => .raised

def claudeInner (model : String) (result : Json) : PyOutcome Json :=
  match hasNonemptyKey result "content" with
  | .raised => .raised
  | .perr m => .perr m
  | .ok false => .perr "No response from Claude"
  | .ok true => claudeExtract model result

/-- `ClaudeProvider.chat` response handling including its
`except Exception` wrapper. -/
def claudeChat (model : String) (result : Json) : PyOutcome Json :=
  wrapExc "Claude" (claudeInner model result)

/-- The backend reply has the named key missing, or present as an empty
array (zero completion choices / zero content blocks). -/
def emptyOrMissingKey (reply : Json) (key : String) : Bool :=
  match reply with
  | .obj kvs =>
    match pyGet? kvs key with
    | none => true
    | some (.arr []) => true
    | some _ => false
  | _ => false

/-- A conversation message (`{"role": ..., "content": ...}`). -/
structure Msg where
  role : String
  content : String
deriving Repr

/-- The mutable state of one `BaseAgent.run` invocation, plus a count
of provider `chat` calls made so far (the oracle below is indexed by
it). -/
structure RunState where
  conversation_history : List Msg
  lastContent : String
  finalResponse : Option Json
  consecutiveErrors : Nat
  calls : Nat
deriving Repr

/-- `response.get("content", "")` for the canonical response dict.
(Adapters always place a string there; other shapes fall back to the
default.) -/
def getContent (resp : Json) : String :=
  match resp with
  | .obj kvs =>
    match pyGet? kvs "content" with
    | some (.str s) => s
    | _ => ""
  | _ => ""

/-- The state update of a failed provider attempt (the `except
ProviderError` branch before the ceiling check): only the error counter
moves; the conversation is untouched.  The `time.sleep` backoff is a
pure delay and has no state effect. -/
def errorStep (st : RunState) : RunState :=
  { st with calls := st.calls + 1, consecutiveErrors := st.consecutiveErrors + 1 }

/-- The run-level failure dict built when the retry ceiling is
exceeded. -/
def failedJson (pname : String) (attempts : Nat) (errMsg partialContent : String) : Json :=
  Json.obj [("error", .bool true),
    ("message", .str ("Provider failed after " ++ toString attempts ++ " attempts: " ++ errMsg)),
    ("provider", .str pname), ("partial_content", .str partialContent)]

/-- The `{tool, args, result}` triples collected by the dispatch loop,
as one JSON array in collection order. -/
def encodeTriples (ts : List (Json × Json × Json)) : Json :=
  .arr (ts.map fun t => .obj [("tool", t.1), ("args", t.2.1), ("result", t.2.2)])

/-- The synthetic user-role feedback message content:
`"Tool execution results:\n"` followed by
`json.dumps(tool_results, indent=2)`. -/
def feedbackContent (ts : List (Json × Json × Json)) : String :=
  "Tool execution results:\n" ++ dumps2 (encodeTriples ts)

/-- The dict returned when the loop never received any response. -/
def noResponseJson : Json :=
  Json.obj [("error", .bool true), ("message", .str "No response from provider")]

/-- The `while iteration < max_iterations` loop of `BaseAgent.run`,
with the remaining iteration budget as fuel.  `oracle k` is the outcome
of the `(k+1)`-th provider `chat` call (an `Except.error` is a raised
`ProviderError` with that message); `execTool` abstracts
`_execute_tool` (registry lookup plus exception-to-result conversion),
mapping a tool name and args to a Tool Result.  Returns the final state
and the value `run` returns. -/
def runLoop (oracle : Nat → Except String Json) (pname : String) (retry : Nat)
    (execTool : Json → Json → Json) : Nat → RunState → RunState × Json
  | 0, st =>
    (st, match st.finalResponse with
         | none => noResponseJson
         | some r => r)
  | fuel + 1, st =>
    match oracle st.calls with
    | .error e =>
      let st' := errorStep st
      if retry < st'.consecutiveErrors then
        (st', failedJson pname st'.consecutiveErrors e st'.lastContent)
      else
        runLoop oracle pname retry execTool fuel st'
    | .ok response =>
      let content := getContent response
      let st' : RunState :=
        { conversation_history := st.conversation_history ++ [⟨"assistant", content⟩],
          lastContent := content,
          finalResponse := some response,
          consecutiveErrors := 0,
          calls := st.calls + 1 }
      let tool_calls := parse_tool_calls content
      if tool_calls.isEmpty then (st', response)
      else
        let tool_results := tool_calls.map fun tc => (tc.tool, tc.args, execTool tc.tool tc.args)
        let st2 : RunState :=
          { st' with conversation_history :=
              st'.conversation_history ++ [⟨"user", feedbackContent tool_results⟩] }
        runLoop oracle pname retry execTool fuel st2

/-- `BaseAgent.run`: initialize the conversation with the optional
system message and the user prompt, then run the loop with the
iteration budget. -/
def runAgent (oracle : Nat → Except String Json) (pname : String) (retry : Nat)
    (execTool : Json → Json → Json) (maxIterations : Nat)
    (system_prompt : Option String) (prompt : String) : RunState × Json :=
  let messages :=
    (match system_prompt with
     | some sp => [⟨"system", sp⟩]
     | none => []) ++ [⟨"user", prompt⟩]
  runLoop oracle pname retry execTool maxIterations
    { conversation_history := messages, lastContent := "", finalResponse := none,
      consecutiveErrors := 0, calls := 0 }

/-- Does a JSON object carry the given key? -/
def jsonHasKey (j : Json) (k : String) : Bool :=
  match j with
  | .obj kvs => pyHasKey kvs k
  | _ => false

/-- The environment of the path-confinement scenario: `PROJECT_ROOT`
set to a temporary directory, the process running inside it. -/
def c1Env : Env := { projectRootVar := some "/tmp/ralph_proj", cwd := "/tmp/ralph_proj" }

/-- A filesystem in which `/etc/passwd` exists with known contents. -/
def c1Fs : String → Option String :=
  fun p => if p = "/etc/passwd" then some "root:x:0:0:root:/root:/bin/sh" else none

/-- C1: the path-confinement check is inoperative.  With the project
root set to `/tmp/ralph_proj`, `is_within_project "/etc/passwd"`
returns `True` (on POSIX `os.path.relpath` never raises for a nonempty
path, so the `except ValueError` guard can never fire), and
`write_file("/etc/passwd", "x")` therefore returns a success Tool
Result and overwrites the file — not the `{success: false}` result with
no mutation that the specification requires. -/
theorem c1_write_outside_root_succeeds :
    is_within_project c1Env "/etc/passwd" = true ∧
    (write_file c1Env c1Fs "/etc/passwd" "x").2 =
      Json.obj [("success", .bool true), ("message", .str "Written to /etc/passwd"),
        ("bytes", .num 1)] ∧
    (write_file c1Env c1Fs "/etc/passwd" "x").1 "/etc/passwd" = some "x" ∧
    c1Fs "/etc/passwd" = some "root:x:0:0:root:/root:/bin/sh" :=
  ⟨rfl, rfl, rfl, rfl⟩

/-- C10: a command that completes with a nonzero exit code yields
`{success: false, exit_code, stdout, stderr}` with no `error` field —
`success` equals `(exit code == 0)` — and a result carries an `error`
field exactly when the invocation timed out or raised. -/
theorem c10_bash_result_shape (rc : Int) (out err : String) (o : BashOutcome)
    (h : ¬rc = 0) :
    bash_command (.completed rc out err) =
      Json.obj [("success", .bool false), ("exit_code", .num rc), ("stdout", .str out),
        ("stderr", .str err)] ∧
    jsonHasKey (bash_command (.completed rc out err)) "error" = false ∧
    (∀ rc2 out2 err2, bash_command (.completed rc2 out2 err2) =
      Json.obj [("success", .bool (rc2 == 0)), ("exit_code", .num rc2),
        ("stdout", .str out2), ("stderr", .str err2)]) ∧
    (jsonHasKey (bash_command o) "error" = true ↔
      o = .timedOut ∨ ∃ m, o = .exc m) := by
  have hb : (rc == 0) = false := by
    simp only [beq_eq_false_iff_ne, ne_eq]
    exact h
  refine ⟨by rw [bash_command, hb], by rw [bash_command, hb]; rfl, fun rc2 out2 err2 => rfl, ?_⟩
  constructor
  · intro hkey
    cases o with
    | completed rc2 out2 err2 =>
      exfalso
      rw [bash_command] at hkey
      simp [jsonHasKey, pyHasKey, pyGet?] at hkey
    | timedOut => exact Or.inl rfl
    | exc m => exact Or.inr ⟨m, rfl⟩
  · intro hcase
    rcases hcase with h1 | ⟨m, h1⟩ <;> subst h1 <;> rfl

theorem c10_bash_result_shape_witness :
    ¬(7 : Int) = 0 ∧
    (bash_command (.completed 7 "out" "err") =
      Json.obj [("success", .bool false), ("exit_code", .num 7), ("stdout", .str "out"),
        ("stderr", .str "err")] ∧
    jsonHasKey (bash_command (.completed 7 "out" "err")) "error" = false ∧
    (∀ rc2 out2 err2, bash_command (.completed rc2 out2 err2) =
      Json.obj [("success", .bool (rc2 == 0)), ("exit_code", .num rc2),
        ("stdout", .str out2), ("stderr", .str err2)]) ∧
    (jsonHasKey (bash_command .timedOut) "error" = true ↔
      BashOutcome.timedOut = .timedOut ∨ ∃ m, BashOutcome.timedOut = .exc m)) :=
  ⟨by decide, c10_bash_result_shape 7 "out" "err" .timedOut (by decide)⟩

theorem hasNonemptyKey_empty (r : Json) (k : String) (h : emptyOrMissingKey r k = true) :
    hasNonemptyKey r k = .ok false := by
  cases r with
  | obj kvs =>
    rw [hasNonemptyKey]
    rw [emptyOrMissingKey] at h
    cases heq : pyGet? kvs k with
    | none => rfl
    | some v =>
      rw [heq] at h
      cases v with
      | arr xs =>
        cases xs with
        | nil => rfl
        | cons a t => simp at h
      | null => simp at h
      | bool b => simp at h
      | num n => simp at h
      | str s => simp at h
      | obj es => simp at h
  | null => simp [emptyOrMissingKey] at h
  | bool b => simp [emptyOrMissingKey] at h
  | num n => simp [emptyOrMissingKey] at h
  | str s => simp [emptyOrMissingKey] at h
  | arr xs => simp [emptyOrMissingKey] at h

/-- C4: a backend reply that parses as JSON but carries zero completion
choices (missing `choices` key or an empty `choices` array; for Claude,
a missing or empty `content` block array) makes every adapter's `chat`
raise a `ProviderError` — never a success Response with empty
content.  (For Codex and Claude the `ProviderError` raised inside the
`try` block is caught by their `except Exception` handler and re-raised
wrapped, still a `ProviderError`.) -/
theorem c4_zero_choices_raises (r1 r2 : Json) (m1 m2 m3 : String)
    (h1 : emptyOrMissingKey r1 "choices" = true)
    (h2 : emptyOrMissingKey r2 "content" = true) :
    glmChat m1 r1 = .perr "No response from GLM" ∧
    codexChat m2 r1 = .perr "OpenAI request failed: No response from OpenAI" ∧
    claudeChat m3 r2 = .perr "Claude request failed: No response from Claude" := by
  refine ⟨?_, ?_, ?_⟩
  · rw [glmChat, hasNonemptyKey_empty r1 "choices" h1]
  · rw [codexChat, codexInner, hasNonemptyKey_empty r1 "choices" h1]
    rfl
  · rw [claudeChat, claudeInner, hasNonemptyKey_empty r2 "content" h2]
    rfl

theorem c4_zero_choices_raises_witness :
    emptyOrMissingKey (Json.obj [("id", .str "x"), ("choices", .arr [])]) "choices" = true ∧
    emptyOrMissingKey (Json.obj []) "content" = true ∧
    (glmChat "glm-4.7" (Json.obj [("id", .str "x"), ("choices", .arr [])]) =
        .perr "No response from GLM" ∧
      codexChat "gpt-4" (Json.obj [("id", .str "x"), ("choices", .arr [])]) =
        .perr "OpenAI request failed: No response from OpenAI" ∧
      claudeChat "claude-sonnet-4-20250514" (Json.obj []) =
        .perr "Claude request failed: No response from Claude") :=
  ⟨rfl, rfl, c4_zero_choices_raises _ _ "glm-4.7" "gpt-4" "claude-sonnet-4-20250514" rfl rfl⟩

/-- C6: when the recognized tool-call markers of an assistant text are
exactly one fenced `tool`/`bash`/`command` block (and no bracket
directive), and the block's body is not valid JSON, the parser returns
exactly one call: the synthetic `bash` call whose `command` is the
stripped body text. -/
theorem c6_fenced_nonjson_becomes_bash (content b : String)
    (hmd : scanFences content = [b])
    (hbr : scanBrackets content = [])
    (hjson : loads b = none) :
    parse_tool_calls content =
      [{ tool := Json.str "bash", args := Json.obj [("command", Json.str (pyStrip b))] }] := by
  rw [parse_tool_calls, hmd, hbr]
  have hpf : processFence b = some
      { tool := Json.str "bash", args := Json.obj [("command", Json.str (pyStrip b))] } := by
    rw [processFence, hjson]
  simp [hpf]

theorem c6_fenced_nonjson_becomes_bash_witness :
    scanFences "x ```bash\nls -la\n``` y" = ["ls -la"] ∧
    scanBrackets "x ```bash\nls -la\n``` y" = [] ∧
    loads "ls -la" = none ∧
    parse_tool_calls "x ```bash\nls -la\n``` y" =
      [{ tool := Json.str "bash", args := Json.obj [("command", Json.str (pyStrip "ls -la"))] }] :=
  ⟨rfl, rfl, rfl, c6_fenced_nonjson_becomes_bash "x ```bash\nls -la\n``` y" "ls -la" rfl rfl rfl⟩

/-- C7: a bracketed directive whose `ARGS` span fails to decode as JSON
is silently dropped (no exception, no call), and later occurrences are
still parsed: with a malformed first bracket call and a well-formed
second one (and no fenced blocks), the parsed list contains only the
second call. -/
theorem c7_bracket_malformed_dropped (content : String) (n1 a1 n2 a2 : String) (args2 : Json)
    (hmd : scanFences content = [])
    (hbr : scanBrackets content = [(n1, a1), (n2, a2)])
    (h1 : loads a1 = none)
    (h2 : loads a2 = some args2) :
    parse_tool_calls content = [{ tool := Json.str n2, args := args2 }] := by
  rw [parse_tool_calls, hmd, hbr]
  have hp1 : processBracket (n1, a1) = none := by
    simp [processBracket, h1]
  have hp2 : processBracket (n2, a2) = some { tool := Json.str n2, args := args2 } := by
    simp [processBracket, h2]
  simp [hp1, hp2]

theorem c7_bracket_malformed_dropped_witness :
    scanFences "[TOOL: read][ARGS: \x7bnot valid\x7d] [TOOL: write][ARGS: \x7b\"a\": 1\x7d]" = [] ∧
    scanBrackets "[TOOL: read][ARGS: \x7bnot valid\x7d] [TOOL: write][ARGS: \x7b\"a\": 1\x7d]" =
      [("read", "\x7bnot valid\x7d"), ("write", "\x7b\"a\": 1\x7d")] ∧
    loads "\x7bnot valid\x7d" = none ∧
    loads "\x7b\"a\": 1\x7d" = some (Json.obj [("a", Json.num 1)]) ∧
    parse_tool_calls "[TOOL: read][ARGS: \x7bnot valid\x7d] [TOOL: write][ARGS: \x7b\"a\": 1\x7d]" =
      [{ tool := Json.str "write", args := Json.obj [("a", Json.num 1)] }] :=
  ⟨rfl, rfl, rfl, rfl,
    c7_bracket_malformed_dropped _ "read" "\x7bnot valid\x7d" "write" "\x7b\"a\": 1\x7d"
      (Json.obj [("a", Json.num 1)]) rfl rfl rfl rfl⟩

/-- C9: a fenced block whose body is valid JSON but not an object with
a `tool` key (an array, a number, an object without `tool`, ...)
produces no call at all — neither a tool call nor a fallback `bash`
command; the parser's output is just whatever the bracket scan
contributes. -/
theorem c9_json_non_tool_object_dropped (content b : String) (j : Json)
    (hmd : scanFences content = [b])
    (hjson : loads b = some j)
    (hnot : jsonHasKey j "tool" = false) :
    parse_tool_calls content = (scanBrackets content).filterMap processBracket := by
  rw [parse_tool_calls, hmd]
  have hpf : processFence b = none := by
    rw [processFence, hjson]
    cases j with
    | obj kvs =>
      rw [jsonHasKey] at hnot
      simp [hnot]
    | null => rfl
    | bool x => rfl
    | num x => rfl
    | str x => rfl
    | arr x => rfl
  simp [hpf]

theorem c9_json_non_tool_object_dropped_witness :
    scanFences "```tool\n[1, 2]\n```" = ["[1, 2]"] ∧
    loads "[1, 2]" = some (Json.arr [Json.num 1, Json.num 2]) ∧
    jsonHasKey (Json.arr [Json.num 1, Json.num 2]) "tool" = false ∧
    parse_tool_calls "```tool\n[1, 2]\n```" =
      (scanBrackets "```tool\n[1, 2]\n```").filterMap processBracket :=
  ⟨rfl, rfl, rfl,
    c9_json_non_tool_object_dropped "```tool\n[1, 2]\n```" "[1, 2]"
      (Json.arr [Json.num 1, Json.num 2]) rfl rfl rfl⟩

/-- C8: serializing any list of `{tool, args, result}` triples into the
synthetic user-role feedback message — the `"Tool execution
results:\n"` prefix followed by the `json.dumps(..., indent=2)` dump —
and then JSON-decoding the part after the prefix yields exactly the
original triples. -/
theorem c8_feedback_roundtrip (ts : List (Json × Json × Json)) :
    ∃ d, feedbackContent ts = "Tool execution results:\n" ++ d ∧
      loads d = some (encodeTriples ts) :=
  ⟨dumps2 (encodeTriples ts), rfl, loads_dumps2 (encodeTriples ts)⟩

/-- C5: the conversation history of `BaseAgent.run` is append-only.
From any loop state, the final state's conversation extends the current
one (instantiating this at any intermediate state gives monotonicity
across every iteration, and existing messages are never mutated or
removed since the old list is a literal prefix of the new one); and a
failed provider attempt — the `errorStep` the loop's `except
ProviderError` branch applies — appends nothing. -/
theorem c5_conversation_append_only (oracle : Nat → Except String Json) (pname : String)
    (retry : Nat) (execTool : Json → Json → Json) (fuel : Nat) (st : RunState) :
    (∃ t, ((runLoop oracle pname retry execTool fuel st).1).conversation_history =
        st.conversation_history ++ t) ∧
    (errorStep st).conversation_history = st.conversation_history := by
  refine ⟨?_, rfl⟩
  induction fuel generalizing st with
  | zero => exact ⟨[], by simp [runLoop]⟩
  | succ f ih =>
    rw [runLoop]
    cases horacle : oracle st.calls with
    | error e =>
      dsimp only
      split
      · exact ⟨[], by simp [errorStep]⟩
      · obtain ⟨t, ht⟩ := ih (errorStep st)
        exact ⟨t, by rw [ht]; rfl⟩
    | ok response =>
      dsimp only
      split
      · exact ⟨[⟨"assistant", getContent response⟩], rfl⟩
      · obtain ⟨t, ht⟩ := ih _
        refine ⟨⟨"assistant", getContent response⟩ ::
          ⟨"user", feedbackContent ((parse_tool_calls (getContent response)).map
            fun tc => (tc.tool, tc.args, execTool tc.tool tc.args))⟩ :: t, ?_⟩
        rw [ht]
        simp

theorem err_run (oracle : Nat → Except String Json) (em : Nat → String) (pname : String)
    (retry : Nat) (execTool : Json → Json → Json)
    (hor : ∀ k, oracle k = .error (em k)) :
    ∀ (fuel : Nat) (st : RunState), st.consecutiveErrors ≤ retry →
      retry + 1 - st.consecutiveErrors ≤ fuel →
      (runLoop oracle pname retry execTool fuel st).1.calls =
          st.calls + (retry + 1 - st.consecutiveErrors) ∧
        (runLoop oracle pname retry execTool fuel st).1.consecutiveErrors = retry + 1 ∧
        (runLoop oracle pname retry execTool fuel st).1.conversation_history =
          st.conversation_history ∧
        (runLoop oracle pname retry execTool fuel st).2 =
          failedJson pname (retry + 1) (em (st.calls + (retry - st.consecutiveErrors)))
            st.lastContent := by
  intro fuel
  induction fuel with
  | zero =>
    intro st hc hf
    omega
  | succ f ih =>
    intro st hc hf
    rw [runLoop, hor st.calls]
    dsimp only
    by_cases hlast : st.consecutiveErrors = retry
    · rw [if_pos (by simp only [errorStep]; omega)]
      refine ⟨by simp only [errorStep]; omega, by simp only [errorStep]; omega,
        rfl, ?_⟩
      show failedJson pname (st.consecutiveErrors + 1) (em st.calls) st.lastContent = _
      have hidx : st.calls = st.calls + (retry - st.consecutiveErrors) := by omega
      rw [show st.consecutiveErrors + 1 = retry + 1 from by omega, ← hidx]
    · rw [if_neg (by simp only [errorStep]; omega)]
      obtain ⟨ih1, ih2, ih3, ih4⟩ := ih (errorStep st)
        (by simp only [errorStep]; omega) (by simp only [errorStep]; omega)
      refine ⟨?_, ?_, ?_, ?_⟩
      · rw [ih1]
        simp only [errorStep]
        omega
      · rw [ih2]
      · rw [ih3]
        rfl
      · rw [ih4]
        show failedJson pname (retry + 1)
          (em (st.calls + 1 + (retry - (st.consecutiveErrors + 1)))) st.lastContent = _
        have hidx : st.calls + 1 + (retry - (st.consecutiveErrors + 1)) =
            st.calls + (retry - st.consecutiveErrors) := by omega
        rw [hidx]

/-- C2: with a provider whose `chat` always raises (a retryable
`ProviderError`), a retry ceiling `retry` and an iteration budget above
it, `BaseAgent.run` makes exactly `retry + 1` chat attempts and then
returns the run-level failure dict carrying the last error's message
and the last successfully received content as partial output (none was
ever received, so the partial output is the empty string); the final
chat-call counter equals `retry + 1`, so no provider call happens after
the failure. -/
theorem c2_retry_ceiling (em : Nat → String) (pname : String) (retry m : Nat)
    (execTool : Json → Json → Json) (sys : Option String) (prompt : String)
    (h : retry < m) :
    (runAgent (fun k => .error (em k)) pname retry execTool m sys prompt).1.calls =
      retry + 1 ∧
    (runAgent (fun k => .error (em k)) pname retry execTool m sys prompt).2 =
      failedJson pname (retry + 1) (em retry) "" := by
  rw [runAgent.eq_def]
  dsimp only
  obtain ⟨h1, -, -, h4⟩ := err_run (fun k => .error (em k)) em pname retry execTool
    (fun k => rfl) m
    { conversation_history :=
        (match sys with
         | some sp => [⟨"system", sp⟩]
         | none => []) ++ [⟨"user", prompt⟩],
      lastContent := "", finalResponse := none, consecutiveErrors := 0, calls := 0 }
    (by simp) (by simp; omega)
  dsimp only at h1 h4
  simp only [Nat.zero_add, Nat.sub_zero] at h1 h4
  refine ⟨?_, ?_⟩
  · rw [h1]
  · rw [h4]

theorem c2_retry_ceiling_witness :
    1 < 3 ∧
    ((runAgent (fun k => .error ("boom " ++ toString k)) "glm" 1 (fun _ _ => Json.null) 3
        none "do it").1.calls = 1 + 1 ∧
      (runAgent (fun k => .error ("boom " ++ toString k)) "glm" 1 (fun _ _ => Json.null) 3
        none "do it").2 = failedJson "glm" (1 + 1) ("boom " ++ toString 1) "") :=
  ⟨by decide,
    c2_retry_ceiling (fun k => "boom " ++ toString k) "glm" 1 3 (fun _ _ => Json.null)
      none "do it" (by decide)⟩

theorem budget_run (oracle : Nat → Except String Json) (pname : String) (retry : Nat)
    (execTool : Json → Json → Json) (resp : Nat → Json)
    (hor : ∀ k, oracle k = .ok (resp k))
    (htc : ∀ k, (parse_tool_calls (getContent (resp k))).isEmpty = false) :
    ∀ (fuel : Nat) (st : RunState), 0 < fuel →
      (runLoop oracle pname retry execTool fuel st).2 = resp (st.calls + fuel - 1) := by
  intro fuel
  induction fuel with
  | zero => omega
  | succ f ih =>
    intro st hpos
    rw [runLoop, hor st.calls]
    dsimp only
    rw [if_neg (by rw [htc st.calls]; exact Bool.false_ne_true)]
    by_cases hf : f = 0
    · subst hf
      rw [runLoop]
      dsimp only
      congr 1
    · rw [ih _ (by omega)]
      dsimp only
      congr 1
      omega

/-- The concrete provider response whose content requests a tool call
(forces the loop to keep iterating). -/
def c3RespTool : Json :=
  Json.obj [("content", .str "```bash\nls -la\n```"), ("raw", .null), ("model", .str "m")]

/-- The concrete provider response whose content requests nothing
(lets the loop finish normally). -/
def c3RespDone : Json :=
  Json.obj [("content", .str "all done"), ("raw", .null), ("model", .str "m")]

/-- A concrete tool executor for the runs below. -/
def c3Exec : Json → Json → Json := fun _ _ => Json.obj [("success", .bool true)]

/-- C3 counterexample: the claim says a budget-exhausted run returns
the most recent Response *together with a distinguishable signal*.  In
fact `run` returns the provider's response dict verbatim: with an
iteration budget of 1 and a response whose content still contains a
tool call, the returned value is exactly `c3RespTool` — no extra field,
no marker (the only signal is a console print) — and a normal `DONE`
run likewise returns its bare response dict, with the same key layout
and no `error` key in either, so nothing in the returned value
distinguishes "incomplete" from "completed". -/
theorem c3_budget_result_is_bare_response :
    (runAgent (fun _ => .ok c3RespTool) "glm" 2 c3Exec 1 none "go").2 = c3RespTool ∧
    (parse_tool_calls (getContent c3RespTool)).isEmpty = false ∧
    (runAgent (fun _ => .ok c3RespDone) "glm" 2 c3Exec 5 none "go").2 = c3RespDone ∧
    (parse_tool_calls (getContent c3RespDone)).isEmpty = true ∧
    jsonHasKey c3RespTool "error" = false ∧
    jsonHasKey c3RespDone "error" = false :=
  ⟨rfl, rfl, rfl, rfl, rfl, rfl⟩

/-- C3 amended: when the iteration budget runs out while every received
content still contains tool calls, `run` returns the most recent
provider Response verbatim — the bare dict produced by the adapter,
with no added "budget exhausted" marker (a warning is only printed to
the console).  It is distinguishable from a `FAILED` result (which has
`error: true`) but carries no signal distinguishing it from a `DONE`
result. -/
theorem c3_budget_returns_last_response (resp : Nat → Json) (pname : String) (retry : Nat)
    (execTool : Json → Json → Json) (m : Nat) (sys : Option String) (prompt : String)
    (hm : 0 < m)
    (htc : ∀ k, (parse_tool_calls (getContent (resp k))).isEmpty = false) :
    (runAgent (fun k => .ok (resp k)) pname retry execTool m sys prompt).2 = resp (m - 1) := by
  rw [runAgent.eq_def]
  dsimp only
  rw [budget_run (fun k => .ok (resp k)) pname retry execTool resp (fun k => rfl) htc m _ hm]
  dsimp only
  congr 1
  omega

theorem c3_budget_returns_last_response_witness :
    0 < 1 ∧
    (∀ k, (parse_tool_calls (getContent ((fun _ : Nat => c3RespTool) k))).isEmpty = false) ∧
    (runAgent (fun k => .ok ((fun _ : Nat => c3RespTool) k)) "glm" 2 c3Exec 1 none "go").2 =
      (fun _ : Nat => c3RespTool) (1 - 1) :=
  ⟨by decide, fun k => rfl,
    c3_budget_returns_last_response (fun _ : Nat => c3RespTool) "glm" 2 c3Exec 1 none "go"
      (by decide) (fun k => rfl)⟩
